import Mathlib

/-!
Verification of the Moment ("Now") monad of hareactive, `src/Now.ts`.

The `Now` class hierarchy of `src/Now.ts` is translated as an inductive
family with one constructor per concrete subclass (`OfNow`, `ChainNow`,
`AsyncNow`, `SampleNow`, `PerformStreamNow`, `PlanNow`), and the abstract
`run()` method as a function `Now.run`.

The collaborators `Future`, `Behavior`, `Stream` (files of this repository
that are not part of the sources at hand) and the `jabz` `IO`/`Promise`
machinery are modelled from the specification: time is an explicit natural
number instant, effects are recorded in an explicit timestamped event log,
and a Future either never occurs, occurs once at an instant with a value,
or is failed.

TypeScript has a single impredicative type `Now<A>` in which `A` may again
be a `Now` type (as in `flatten`, whose argument is a `Now<Now<A>>`).  A
predicative embedding must split this into universe instances: the family
`Now` is universe polymorphic, a nested computation lives one universe
above its payload, and the value-preserving coercion `Now.up` (proved to
preserve `run` exactly, in `Now.run_up`) mediates where the source simply
reuses one class.
-/

set_option autoImplicit false

namespace Hareactive

universe u v

/-- A logical instant ("now") on the timeline. -/
abbrev Time := Nat

/-- Modelled from the spec: an Action (the external `jabz` `IO` wrapper) is
an immutable description of a side-effecting operation.  `aid` identifies
the action in the effect log; executing it at instant `t` starts it at `t`
and delivers its asynchronous completion at `t + delay`: the value `result`
when `fails` is `false`, a rejection when `fails` is `true`. -/
structure Action (α : Type u) : Type u where
  aid : Nat
  delay : Nat
  result : α
  fails : Bool

/-- Observable side effects, timestamped with the instant they happen:
`start aid t` records that action `aid` began executing at `t` (`runIO`),
`read t` records a synchronous behavior read at `t` (`at`), and
`listen sid t` records a listener installed on stream `sid` at `t`
(`addListener`). -/
inductive Event : Type where
  | start (aid : Nat) (t : Time)
  | read (t : Time)
  | listen (sid : Nat) (t : Time)
  deriving DecidableEq, Repr

/-- Modelled from the spec: the host's standard asynchronous-completion
primitive (a JavaScript `Promise`): forever pending, resolved once at an
instant with a value, or rejected once at an instant. -/
inductive Promise (α : Type u) : Type u where
  | pending
  | resolved (t : Time) (a : α)
  | rejected (t : Time)

/-- Whether a promise was rejected (the failure channel of the host's
asynchronous-completion primitive). -/
def Promise.isRejected {α : Type u} : Promise α → Bool
  | .rejected _ => true
  | _ => false

/-- Modelled from the spec: a Future is a value that becomes available at
most once, at an unknown later instant.  `occ t a` occurs at instant `t`
with value `a`; `never` never occurs; `failed t` is a failed future (spec
§7: a failure inside a wrapped Action is recovered at the Future boundary
and turned into a failed Future, which never occurs with a value). -/
inductive Future (α : Type u) : Type u where
  | never
  | failed (t : Time)
  | occ (t : Time) (a : α)

/-- Mapping over a future with a pure function (modelled from the spec:
Future supports mapping; the mapped future occurs exactly when its parent
occurs, with the function applied to the delivered value at that
instant). -/
def Future.map {α : Type u} {β : Type v} (f : α → β) : Future α → Future β
  | .never => .never
  | .failed t => .failed t
  | .occ t a => .occ t (f a)

/-- The instant at which a future occurs with a value, if any. -/
def Future.occTime {α : Type u} : Future α → Option Time
  | .occ t _ => some t
  | _ => none

/-- Modelled from the spec (`jabz/io`): executing an action at instant `t`
yields its asynchronous completion handle. -/
def runIOAction {α : Type u} (c : Action α) (t : Time) : Promise α :=
  if c.fails then Promise.rejected (t + c.delay) else Promise.resolved (t + c.delay) c.result

/-- Modelled from the spec (`Future.ts` collaborator): turn a promise into
the future of its completion: resolution becomes the single occurrence,
rejection a failed future that never occurs with a value. -/
def fromPromise {α : Type u} : Promise α → Future α
  | .pending => .never
  | .resolved t a => .occ t a
  | .rejected t => .failed t

/-- Modelled from the spec: a Behavior is a continuous time-varying value
supporting synchronous reads of its current value. -/
def Behavior (α : Type u) : Type u := Time → α

/-- Reading the current value of a behavior at the current instant (the
collaborator operation `at` of `Behavior.ts`; named `atB` because `at` is
reserved in Lean). -/
def atB {α : Type u} (b : Behavior α) (t : Time) : α := b t

/-- Modelled from the spec: a Stream is a discrete, push-driven sequence of
occurrences.  `sid` is the stream's identity (used by the effect log for
listener installation); `occs` is its timeline: the list of pushed
occurrences as (instant, value) pairs. -/
structure Stream (α : Type u) : Type u where
  sid : Nat
  occs : List (Time × α)

/-- Mapping a pure function over the occurrence values of a stream, keeping
its identity and its occurrence instants (a helper of the embedding, used
by the universe coercion `Now.up` below). -/
def Stream.mapVals {α : Type u} {β : Type v} (f : α → β) (s : Stream α) : Stream β :=
  { sid := s.sid, occs := s.occs.map fun p => (p.1, f p.2) }

/-- The output stream built by `PerformIOStream` (class of `src/Now.ts`,
its `Stream` base modelled from the spec): a derived stream with an
identity distinct from the source stream; for every occurrence `(tp, io)`
pushed into the source, `io` is executed at `tp` (`push` calls
`runIO(io)`; the start event is emitted by `Now.run`) and `.then` pushes
the completion value into the derived stream at `tp + io.delay` — unless
the action fails, in which case the rejected completion pushes nothing. -/
def performIOStream {α : Type u} (s : Stream (Action α)) : Stream α :=
  { sid := s.sid + 1
  , occs := s.occs.filterMap fun p =>
      if p.2.fails then none else some (p.1 + p.2.delay, p.2.result) }

/-- The Moment monad of `src/Now.ts`: one constructor per concrete subclass
of the abstract class `Now`, each holding exactly the fields its
constructor stores.  The subclass `PlanNow` stores one field
`future : Future<Now<A>>`; because the kernel rejects that nested
occurrence of `Now` inside `Future` in an indexed family, the stored
future is unfolded into its three possible shapes (`PlanNeverNow`,
`PlanFailedNow`, `PlanOccNow`) and the class constructor is recovered,
value for value, by the function `Now.PlanNow` below. -/
inductive Now : Type u → Type (u + 1) where
  | OfNow {α : Type u} (value : α) : Now α
  | ChainNow {α β : Type u} (first : Now α) (f : α → Now β) : Now β
  | AsyncNow {α : Type u} (comp : Action α) : Now (Future α)
  | SampleNow {α : Type u} (b : Behavior α) : Now α
  | PerformStreamNow {α : Type u} (s : Stream (Action α)) : Now (Stream α)
  | PlanNeverNow {α : Type u} : Now (Future α)
  | PlanFailedNow {α : Type u} (t : Time) : Now (Future α)
  | PlanOccNow {α : Type u} (t : Time) (n : Now α) : Now (Future α)

/-- The constructor of the subclass `PlanNow`, storing its `future` field
(here unfolded case by case, see `Now`). -/
def Now.PlanNow {α : Type u} : Future (Now α) → Now (Future α)
  | .never => .PlanNeverNow
  | .failed t => .PlanFailedNow t
  | .occ t n => .PlanOccNow t n

/-- The abstract method `run()` of `src/Now.ts`, one equation per subclass,
made explicit in time and effects: `run n t log` evaluates `n` at instant
`t` against the effect log `log` and returns the result together with the
extended log (events deferred to a later instant are recorded with their
own timestamp):
* `OfNow.run` returns the stored value;
* `ChainNow.run` is `this.f(this.first.run()).run()`;
* `AsyncNow.run` is `fromPromise(runIO(this.comp))`, starting the action
  at the current instant;
* `SampleNow.run` is `at(this.b)`, a synchronous read at the current
  instant;
* `PerformStreamNow.run` is `new PerformIOStream(this.s)`, whose
  constructor installs a listener on `s`; each pushed occurrence then has
  its action executed at the instant of the push;
* `PlanNow.run` is `this.future.map(run)`: the resulting future occurs
  when the stored future occurs, and at that instant the carried `Now`
  computation is run, with that instant as its own "now". -/
def Now.run : {α : Type u} → Now α → Time → List Event → α × List Event
  | _, .OfNow value, _, log => (value, log)
  | _, .ChainNow first f, t, log =>
      let p := first.run t log
      (f p.1).run t p.2
  | _, .AsyncNow comp, t, log =>
      (fromPromise (runIOAction comp t), log ++ [Event.start comp.aid t])
  | _, .SampleNow b, t, log => (atB b t, log ++ [Event.read t])
  | _, .PerformStreamNow s, t, log =>
      (performIOStream s,
       log ++ [Event.listen s.sid t] ++ s.occs.map fun p => Event.start p.2.aid p.1)
  | _, .PlanNeverNow, _, log => (Future.never, log)
  | _, .PlanFailedNow tf, _, log => (Future.failed tf, log)
  | _, .PlanOccNow t2 n, _, log =>
      let p := n.run t2 log
      (Future.occ t2 p.1, p.2)

/-- `Now.of` (both the instance method and the static method of
`src/Now.ts` have the same body): `return new OfNow(b)`. -/
def Now.of {β : Type u} (b : β) : Now β := .OfNow b

/-- The method `chain` of `src/Now.ts`: `return new ChainNow(this, f)`. -/
def Now.chain {α β : Type u} (m : Now α) (f : α → Now β) : Now β := .ChainNow m f

/-- The method `map` of `src/Now.ts`:
`return this.chain((a: A) => this.of(f(a)));`. -/
def Now.map {α β : Type u} (m : Now α) (f : α → β) : Now β :=
  m.chain fun a => Now.of (f a)

/-- The method `mapTo` of `src/Now.ts`:
`return this.chain((_) => this.of(b));`. -/
def Now.mapTo {α β : Type u} (m : Now α) (b : β) : Now β :=
  m.chain fun _ => Now.of b

/-- Carrying an action one universe up, value for value (an artifact of the
predicative embedding; identities, instants and the failure flag are
untouched). -/
def Action.up {α : Type u} (c : Action α) : Action (ULift.{u + 1} α) :=
  { aid := c.aid, delay := c.delay, result := ULift.up c.result, fails := c.fails }

/-- Carrying a future one universe down, value for value. -/
def Future.lower {α : Type u} (fu : Future (ULift.{u + 1} α)) : ULift.{u + 1} (Future α) :=
  ULift.up (fu.map fun x => x.down)

/-- Carrying a stream one universe down, value for value. -/
def Stream.lower {α : Type u} (st : Stream (ULift.{u + 1} α)) : ULift.{u + 1} (Stream α) :=
  ULift.up (st.mapVals fun x => x.down)

/-- Carrying a `Now` computation one universe up, value for value: in the
source there is a single class `Now<A>` and this coercion is the identity;
the predicative embedding must re-wrap each constructor so that the
payload lands in `ULift α`.  `Now.run_up` below proves that the coercion
changes nothing observable: the result is the same value (up to `ULift.up`)
and the effect log is extended by exactly the same events. -/
def Now.up : {α : Type u} → Now α → Now (ULift.{u + 1} α)
  | _, .OfNow value => .OfNow (ULift.up value)
  | _, .ChainNow first f => .ChainNow first.up fun g => (f g.down).up
  | _, .AsyncNow comp => .ChainNow (.AsyncNow comp.up) fun fu => .OfNow fu.lower
  | _, .SampleNow b => .SampleNow fun t => ULift.up (b t)
  | _, .PerformStreamNow s =>
      .ChainNow (.PerformStreamNow (s.mapVals Action.up)) fun st => .OfNow st.lower
  | _, .PlanNeverNow => .ChainNow .PlanNeverNow fun fu => .OfNow fu.lower
  | _, .PlanFailedNow tf => .ChainNow (.PlanFailedNow tf) fun fu => .OfNow fu.lower
  | _, .PlanOccNow t2 n => .ChainNow (.PlanOccNow t2 n.up) fun fu => .OfNow fu.lower

theorem Action.up_fails {α : Type u} (c : Action α) : (c.up).fails = c.fails := rfl

theorem Action.up_delay {α : Type u} (c : Action α) : (c.up).delay = c.delay := rfl

theorem Action.up_result {α : Type u} (c : Action α) : (c.up).result = ULift.up c.result := rfl

theorem Action.up_aid {α : Type u} (c : Action α) : (c.up).aid = c.aid := rfl

/-- Lowering the occurrence values of the performed stream of a lifted
action stream gives back the performed stream of the original action
stream, occurrence for occurrence. -/
theorem up_occs {α : Type u} (l : List (Time × Action α)) :
    ((l.map fun p => (p.1, p.2.up)).filterMap fun q =>
        if q.2.fails then none else some (q.1 + q.2.delay, q.2.result)).map
      (fun r => (r.1, r.2.down))
    = l.filterMap fun p => if p.2.fails then none else some (p.1 + p.2.delay, p.2.result) := by
  induction l with
  | nil => rfl
  | cons p l ih =>
      simp only [List.map_cons, List.filterMap_cons, Action.up_fails, Action.up_delay,
        Action.up_result]
      cases hf : p.2.fails <;> simp [hf, ih, -List.filterMap_map]

/-- Lowering the output stream of `performIOStream` over a lifted action
stream yields exactly the output stream over the original action
stream. -/
theorem lower_up_performIOStream {α : Type u} (s : Stream (Action α)) :
    Stream.lower (performIOStream (s.mapVals Action.up)) = ULift.up (performIOStream s) := by
  simp only [Stream.lower, Stream.mapVals, performIOStream]
  exact congrArg ULift.up (congrArg (Stream.mk (s.sid + 1)) (up_occs s.occs))

/-- The universe coercion `Now.up` preserves the `run` semantics exactly:
same result value (up to `ULift.up`) and the very same effect log. -/
theorem Now.run_up : ∀ {α : Type u} (n : Now α) (t : Time) (log : List Event),
    n.up.run t log = (ULift.up (n.run t log).1, (n.run t log).2)
  | _, .OfNow _, _, _ => rfl
  | _, .ChainNow first f, t, log => by
      show (ChainNow first.up fun g => (f g.down).up).run t log = _
      simp only [Now.run]
      rw [Now.run_up first t log]
      exact Now.run_up (f (first.run t log).1) t (first.run t log).2
  | _, .AsyncNow comp, t, log => by
      show (ChainNow (AsyncNow comp.up) fun fu => OfNow fu.lower).run t log = _
      simp only [Now.run]
      cases hf : comp.fails <;>
        simp [runIOAction, fromPromise, Future.lower, Future.map, Action.up, hf]
  | _, .SampleNow b, t, log => rfl
  | _, .PerformStreamNow s, t, log => by
      show (ChainNow (PerformStreamNow (s.mapVals Action.up)) fun st =>
          OfNow st.lower).run t log = _
      simp only [Now.run, lower_up_performIOStream]
      simp [Stream.mapVals, List.map_map, Function.comp, Action.up_aid]
  | _, .PlanNeverNow, t, log => rfl
  | _, .PlanFailedNow tf, t, log => rfl
  | _, .PlanOccNow t2 n, t, log => by
      show (ChainNow (PlanOccNow t2 n.up) fun fu => OfNow fu.lower).run t log = _
      simp only [Now.run]
      rw [Now.run_up n t2 log]
      rfl

/-- The method `flatten` of `src/Now.ts`:
`return now.chain((n: Now<A>) => n);` — the receiver (`this`, here `self`)
does not appear in the body.  In the source the continuation is the
identity; in the predicative embedding the inner computation must be
handed back one universe up, through the run-preserving coercion
`Now.up` (see `Now.run_up`). -/
def Now.flatten {α : Type u} (self : Now α) (now : Now.{u + 1} (Now.{u} α)) :
    Now.{u + 1} (ULift.{u + 1} α) :=
  now.chain fun n => n.up

/-- A JavaScript function value, as the untyped implementation of `lift`
receives it: `length` is the function's declared parameter count (the
JavaScript `f.length` that `lift` switches on) and `apply` its application
to a list of arguments.  All arguments and the result live in one type, as
in the untyped (`any`) body of `lift`. -/
structure FnN (α : Type u) : Type u where
  length : Nat
  apply : List α → α

/-- What a call of `lift` can come back with: a `Now` computation
(a normal return of a constructed value), the JavaScript value `undefined`
(a normal, non-error return: the body's `switch` fell through with no
`return` statement), or a thrown error. -/
inductive LiftResult (α : Type u) : Type (u + 1) where
  | value (n : Now α)
  | undefined
  | thrown

/-- Whether a call of `lift` signalled an error by throwing. -/
def LiftResult.isThrown {α : Type u} : LiftResult α → Bool
  | .thrown => true
  | _ => false

/-- The method `lift(f: Function, ...ms: any[])` of `src/Now.ts`.  The body
first destructures `const {of} = ms[0]` — a thrown `TypeError` when the
argument list is empty, since `ms[0]` is `undefined` — and then switches on
`f.length`: case 1 is `ms[0].map(f)`; case 2 is
`ms[0].chain((a) => ms[1].chain((b) => of(f(a, b))))`; case 3 is the
analogous three-deep chain; any other declared parameter count falls off
the `switch`, so the method returns `undefined`.  (The instance method `of`
destructured from `ms[0]` is `OfNow`, i.e. `Now.of`.)  The untyped corner
in which `f.length` is 2 or 3 but fewer computations are supplied — a call
the typed overload signatures of the source rule out, and in which the
real body constructs a computation that only throws once run — is mapped
to `undefined` together with the fall-through case. -/
def Now.lift {γ α : Type u} (_self : Now γ) (f : FnN α) (ms : List (Now α)) :
    LiftResult α :=
  match ms with
  | [] => .thrown
  | m0 :: tail =>
    if f.length = 1 then
      .value (m0.map fun a => f.apply [a])
    else if f.length = 2 then
      match tail with
      | m1 :: _ =>
          .value (m0.chain fun a => m1.chain fun b => Now.of (f.apply [a, b]))
      | [] => .undefined
    else if f.length = 3 then
      match tail with
      | m1 :: m2 :: _ =>
          .value (m0.chain fun a => m1.chain fun b => m2.chain fun c =>
            Now.of (f.apply [a, b, c]))
      | _ => .undefined
    else .undefined

/-- The function `async` of `src/Now.ts`: `return new AsyncNow(comp)`. -/
def async {α : Type u} (comp : Action α) : Now (Future α) := .AsyncNow comp

/-- The function `sample` of `src/Now.ts`: `return new SampleNow(b)`. -/
def sample {α : Type u} (b : Behavior α) : Now α := .SampleNow b

/-- The function `performStream` of `src/Now.ts`:
`return new PerformStreamNow(s)`. -/
def performStream {α : Type u} (s : Stream (Action α)) : Now (Stream α) :=
  .PerformStreamNow s

/-- The function `plan` of `src/Now.ts`: `return new PlanNow(future)`. -/
def plan {α : Type u} (future : Future (Now α)) : Now (Future α) :=
  .PlanNow future

/-- The private function `run` of `src/Now.ts`: `return now.run()`. -/
def run {α : Type u} (now : Now α) (t : Time) (log : List Event) :
    α × List Event :=
  now.run t log

/-- The function `runNow` of `src/Now.ts`:
`return new Promise((resolve, reject) => { now.run().subscribe(resolve); })`
— the computation is run, yielding a future, and `resolve` is subscribed to
it (the spec's Future contract: the callback fires at most once, at the
future's occurrence, with the delivered value).  The executor never invokes
`reject`, so the promise resolves at the future's occurrence and otherwise
stays pending forever. -/
def runNow {α : Type u} (now : Now (Future α)) (t : Time) (log : List Event) :
    Promise α × List Event :=
  let p := now.run t log
  (match p.1 with
   | .occ t2 a => Promise.resolved t2 a
   | _ => Promise.pending,
   p.2)

/-!
Construction-time effect model.  Each way of building a `Now` value is a
single constructor call whose `constructor` body only stores its arguments
(`constructor(private value: A) { super(); }` and likewise for the other
subclasses) or, for the derived combinators, builds further such objects
(`chain`, `map`, `mapTo`, `lift`, `flatten` only construct `ChainNow` and
`OfNow` objects; `lift` additionally reads the property `of` of `ms[0]`).
None of them contains a call to `runIO`, `at`, `addListener` or `push`.
Each `...C` function below is the corresponding construction expression
evaluated against the world's effect log: it returns the constructed value
together with the log as the construction left it. -/

/-- Constructing `Now.of(b)` against the effect log. -/
def ofC {β : Type u} (b : β) (log : List Event) : Now β × List Event :=
  (Now.of b, log)

/-- Constructing `m.chain(f)` against the effect log. -/
def chainC {α β : Type u} (m : Now α) (f : α → Now β) (log : List Event) :
    Now β × List Event :=
  (m.chain f, log)

/-- Constructing `m.map(f)` against the effect log. -/
def mapC {α β : Type u} (m : Now α) (f : α → β) (log : List Event) :
    Now β × List Event :=
  (m.map f, log)

/-- Constructing `m.mapTo(b)` against the effect log. -/
def mapToC {α β : Type u} (m : Now α) (b : β) (log : List Event) :
    Now β × List Event :=
  (m.mapTo b, log)

/-- Constructing `self.lift(f, ...ms)` against the effect log. -/
def liftC {γ α : Type u} (self : Now γ) (f : FnN α) (ms : List (Now α))
    (log : List Event) : LiftResult α × List Event :=
  (self.lift f ms, log)

/-- Constructing `self.flatten(now)` against the effect log. -/
def flattenC {α : Type u} (self : Now α) (now : Now.{u + 1} (Now.{u} α))
    (log : List Event) : Now.{u + 1} (ULift.{u + 1} α) × List Event :=
  (self.flatten now, log)

/-- Constructing `async(comp)` against the effect log. -/
def asyncC {α : Type u} (comp : Action α) (log : List Event) :
    Now (Future α) × List Event :=
  (async comp, log)

/-- Constructing `sample(b)` against the effect log. -/
def sampleC {α : Type u} (b : Behavior α) (log : List Event) :
    Now α × List Event :=
  (sample b, log)

/-- Constructing `performStream(s)` against the effect log. -/
def performStreamC {α : Type u} (s : Stream (Action α)) (log : List Event) :
    Now (Stream α) × List Event :=
  (performStream s, log)

/-- Constructing `plan(future)` against the effect log. -/
def planC {α : Type u} (future : Future (Now α)) (log : List Event) :
    Now (Future α) × List Event :=
  (plan future, log)

/-!
The claims.
-/

/-- C2: the Moment monad satisfies the three monad laws up to evaluation:
running `of(a).chain(f)` is running `f(a)` (left identity); running
`m.chain(of)` is running `m` (right identity); and running
`m.chain(f).chain(g)` is running `m.chain(a => f(a).chain(g))`
(associativity) — same result value and same effect log, at every instant
and against every log. -/
theorem now_monad_laws :
    (∀ {α β : Type u} (a : α) (f : α → Now β) (t : Time) (log : List Event),
        ((Now.of a).chain f).run t log = (f a).run t log)
    ∧ (∀ {α : Type u} (m : Now α) (t : Time) (log : List Event),
        (m.chain Now.of).run t log = m.run t log)
    ∧ (∀ {α β γ : Type u} (m : Now α) (f : α → Now β) (g : β → Now γ)
        (t : Time) (log : List Event),
        ((m.chain f).chain g).run t log
          = (m.chain fun a => (f a).chain g).run t log) := by
  refine ⟨fun a f t log => rfl, fun m t log => ?_, fun m f g t log => ?_⟩
  · show (Now.ChainNow m Now.of).run t log = m.run t log
    simp only [Now.run]
  · show (Now.ChainNow (Now.ChainNow m f) g).run t log
      = (Now.ChainNow m fun a => Now.ChainNow (f a) g).run t log
    simp only [Now.run]

/-- C5: for every behavior `b`, evaluating `sample(b)` at an instant reads
the behavior's current value at that instant and returns that value itself
(no future, no deferral); the only effect is the synchronous read. -/
theorem sample_reads_current_value :
    ∀ {α : Type u} (b : Behavior α) (t : Time) (log : List Event),
      (sample b).run t log = (atB b t, log ++ [Event.read t]) :=
  fun _ _ _ => rfl

/-- C6: evaluating `async(comp)` begins executing the action exactly once,
at the instant `run` is called (one `start` event, timestamped with the
run instant) and not at construction (the construction leaves the effect
log untouched), and synchronously returns the future of the action's
eventual completion — for a non-failing action, the occurrence at
`t + delay` carrying the action's result. -/
theorem async_starts_action_on_run :
    ∀ {α : Type u} (comp : Action α) (t : Time) (log : List Event),
      asyncC comp log = (async comp, log)
      ∧ (async comp).run t log
          = (fromPromise (runIOAction comp t), log ++ [Event.start comp.aid t])
      ∧ (comp.fails = false →
          (async comp).run t log
            = (Future.occ (t + comp.delay) comp.result,
               log ++ [Event.start comp.aid t])) := by
  intro α comp t log
  refine ⟨rfl, rfl, fun hf => ?_⟩
  show (Now.AsyncNow comp).run t log = _
  simp [Now.run, runIOAction, fromPromise, hf]

/-- Witness for C6 at a concrete input: the action `⟨0, 2, 5, false⟩` run
at instant 1 starts exactly once at instant 1 and yields the future
occurring at 3 with value 5. -/
theorem async_starts_action_on_run_witness :
    (async (⟨0, 2, 5, false⟩ : Action Nat)).run 1 []
      = (Future.occ 3 5, [Event.start 0 1]) :=
  (async_starts_action_on_run ⟨0, 2, 5, false⟩ 1 []).2.2 rfl

/-- C7: construction is pure: building a Moment value by any of the public
constructors — `of`, `chain`, `map`, `mapTo`, `lift`, `flatten`, `async`,
`sample`, `performStream`, `plan` — leaves the effect log exactly as it
was: no action is started, no behavior is read, no listener is installed
until `run` is called on the constructed value. -/
theorem construction_is_pure :
    (∀ {β : Type u} (b : β) (log : List Event), (ofC b log).2 = log)
    ∧ (∀ {α β : Type u} (m : Now α) (f : α → Now β) (log : List Event),
        (chainC m f log).2 = log)
    ∧ (∀ {α β : Type u} (m : Now α) (f : α → β) (log : List Event),
        (mapC m f log).2 = log)
    ∧ (∀ {α β : Type u} (m : Now α) (b : β) (log : List Event),
        (mapToC m b log).2 = log)
    ∧ (∀ {γ α : Type u} (self : Now γ) (f : FnN α) (ms : List (Now α))
        (log : List Event), (liftC self f ms log).2 = log)
    ∧ (∀ {α : Type u} (self : Now α) (now : Now.{u + 1} (Now.{u} α))
        (log : List Event), (flattenC self now log).2 = log)
    ∧ (∀ {α : Type u} (comp : Action α) (log : List Event),
        (asyncC comp log).2 = log)
    ∧ (∀ {α : Type u} (b : Behavior α) (log : List Event),
        (sampleC b log).2 = log)
    ∧ (∀ {α : Type u} (s : Stream (Action α)) (log : List Event),
        (performStreamC s log).2 = log)
    ∧ (∀ {α : Type u} (future : Future (Now α)) (log : List Event),
        (planC future log).2 = log) :=
  ⟨fun _ _ => rfl, fun _ _ _ => rfl, fun _ _ _ => rfl, fun _ _ _ => rfl,
   fun _ _ _ _ => rfl, fun _ _ _ => rfl, fun _ _ => rfl, fun _ _ => rfl,
   fun _ _ => rfl, fun _ _ => rfl⟩

/-- C8: for declared parameter counts 1 to 3, `lift` applies the combining
function across the given computations, evaluating them left-to-right via
nested chaining (arity read off the function's declared parameter count);
in particular, running `lift((n,m,p) => n+m+p, of(1), of(3), of(5))`
yields 9 with no effect. -/
theorem lift_arities_one_two_three :
    (∀ {γ α : Type u} (self : Now γ) (f : FnN α) (m1 : Now α)
        (rest : List (Now α)), f.length = 1 →
        self.lift f (m1 :: rest)
          = LiftResult.value (m1.map fun a => f.apply [a]))
    ∧ (∀ {γ α : Type u} (self : Now γ) (f : FnN α) (m1 m2 : Now α)
        (rest : List (Now α)), f.length = 2 →
        self.lift f (m1 :: m2 :: rest)
          = LiftResult.value
              (m1.chain fun a => m2.chain fun b => Now.of (f.apply [a, b])))
    ∧ (∀ {γ α : Type u} (self : Now γ) (f : FnN α) (m1 m2 m3 : Now α)
        (rest : List (Now α)), f.length = 3 →
        self.lift f (m1 :: m2 :: m3 :: rest)
          = LiftResult.value
              (m1.chain fun a => m2.chain fun b => m3.chain fun c =>
                Now.of (f.apply [a, b, c])))
    ∧ (∀ (t : Time) (log : List Event),
        ∃ nw : Now Nat,
          Now.lift (Now.of 0) ⟨3, fun l => l.sum⟩
              [Now.of 1, Now.of 3, Now.of 5]
            = LiftResult.value nw
          ∧ nw.run t log = (9, log)) := by
  refine ⟨fun self f m1 rest h1 => ?_, fun self f m1 m2 rest h2 => ?_,
    fun self f m1 m2 m3 rest h3 => ?_, fun t log => ⟨_, rfl, rfl⟩⟩
  · simp [Now.lift, h1]
  · simp [Now.lift, h2]
  · simp [Now.lift, h3]

/-- Witness for C8 at a concrete input: `lift` of a declared-arity-2
function over two pure computations is the two-deep nested chain. -/
theorem lift_arities_one_two_three_witness :
    Now.lift (Now.of (0 : Nat)) ⟨2, fun l => l.sum⟩ [Now.of 1, Now.of 2]
      = LiftResult.value
          ((Now.of 1).chain fun a => (Now.of 2).chain fun b =>
            Now.of ((⟨2, fun l => l.sum⟩ : FnN Nat).apply [a, b])) :=
  lift_arities_one_two_three.2.1 (Now.of 0) ⟨2, fun l => l.sum⟩
    (Now.of 1) (Now.of 2) [] rfl

/-- C3 counterexample: `lift` called with a combining function of declared
parameter count 4 and four pure computations does not signal any error:
the call returns the JavaScript value `undefined` (a silent, normal
return), refuting the claim that such calls fail fast with an error. -/
theorem lift_arity4_counterexample :
    Now.lift (Now.of (0 : Nat)) ⟨4, fun l => l.sum⟩
        [Now.of 1, Now.of 2, Now.of 3, Now.of 4] = LiftResult.undefined
    ∧ LiftResult.isThrown
        (Now.lift (Now.of (0 : Nat)) ⟨4, fun l => l.sum⟩
          [Now.of 1, Now.of 2, Now.of 3, Now.of 4]) = false :=
  ⟨rfl, rfl⟩

/-- C3 amended: for a combining function whose declared parameter count is
0 or at least 4 and a nonempty argument list, `lift` silently returns
`undefined` — no computation and no error signal; only the degenerate call
with an empty argument list throws (a `TypeError` from destructuring
`ms[0]`), whatever the arity. -/
theorem lift_unsupported_arity_is_silent_undefined :
    (∀ {γ α : Type u} (self : Now γ) (f : FnN α) (m0 : Now α)
        (tail : List (Now α)), f.length = 0 ∨ 4 ≤ f.length →
        self.lift f (m0 :: tail) = LiftResult.undefined)
    ∧ (∀ {γ α : Type u} (self : Now γ) (f : FnN α),
        self.lift f [] = LiftResult.thrown) := by
  refine ⟨fun self f m0 tail h => ?_, fun self f => rfl⟩
  have h1 : f.length ≠ 1 := by omega
  have h2 : f.length ≠ 2 := by omega
  have h3 : f.length ≠ 3 := by omega
  simp [Now.lift, h1, h2, h3]

/-- Witness for the amended C3 at a concrete input: declared parameter
count 5 with one argument gives `undefined`. -/
theorem lift_unsupported_arity_is_silent_undefined_witness :
    Now.lift (Now.of (0 : Nat)) ⟨5, fun l => l.sum⟩ [Now.of 7]
      = LiftResult.undefined :=
  lift_unsupported_arity_is_silent_undefined.1 (Now.of 0)
    ⟨5, fun l => l.sum⟩ (Now.of 7) [] (Or.inr (by decide))

/-- C4 counterexample: running a failing action through `runNow` does not
reject the returned promise: with the failing action `⟨3, 2, 0, true⟩`,
the promise is still pending (its rejection test is `false`) — the
failure is dropped, refuting the claim that it surfaces as a rejection. -/
theorem runNow_failed_action_counterexample :
    (runNow (async (⟨3, 2, 0, true⟩ : Action Nat)) 0 []).1 = Promise.pending
    ∧ Promise.isRejected
        (runNow (async (⟨3, 2, 0, true⟩ : Action Nat)) 0 []).1 = false :=
  ⟨rfl, rfl⟩

/-- C4 amended: `runNow` provides no failure channel at all — the promise
it returns is never rejected, for any computation; and when the wrapped
action of an `async` step fails, the future never occurs with a value,
`resolve` is never invoked, and the promise stays pending forever: the
failure is silently dropped rather than surfaced. -/
theorem runNow_never_rejects :
    (∀ {α : Type u} (now : Now (Future α)) (t : Time) (log : List Event)
        (t2 : Time), (runNow now t log).1 ≠ Promise.rejected t2)
    ∧ (∀ {α : Type u} (comp : Action α) (t : Time) (log : List Event),
        comp.fails = true → (runNow (async comp) t log).1 = Promise.pending) := by
  constructor
  · intro α now t log t2
    rcases h : (now.run t log).1 with _ | tf | ⟨t3, a⟩ <;> simp [runNow, h]
  · intro α comp t log hf
    show (runNow (Now.AsyncNow comp) t log).1 = Promise.pending
    simp [runNow, Now.run, runIOAction, fromPromise, hf]

/-- Witness for the amended C4 at a concrete input: the failing action
`⟨1, 4, 7, true⟩` leaves the promise pending. -/
theorem runNow_never_rejects_witness :
    (runNow (async (⟨1, 4, 7, true⟩ : Action Nat)) 2 []).1 = Promise.pending :=
  runNow_never_rejects.2 ⟨1, 4, 7, true⟩ 2 [] rfl

/-- C1 counterexample: `plan` does not wait for the carried computation's
own result.  Take the future `F` occurring at instant 1 whose payload is
`async ⟨7, 5, 42, false⟩` (a computation whose evaluation returns a future
occurring at instant 6).  Evaluating `plan F` at instant 0 returns a
future that occurs at instant 1 — while the inner evaluation's own result
occurs only at instant 6 — so the returned future occurs strictly before
the evaluation's own result does, refuting "occurs only once ... that
evaluation's own result occurs". -/
theorem plan_counterexample :
    (plan (Future.occ 1 (async (⟨7, 5, 42, false⟩ : Action Nat)))).run 0 []
        = (Future.occ 1 (Future.occ 6 42), [Event.start 7 1])
    ∧ Future.occTime
        ((plan (Future.occ 1 (async (⟨7, 5, 42, false⟩ : Action Nat)))).run
            0 []).1 = some 1
    ∧ Future.occTime (Future.occ 6 (42 : Nat)) = some 6
    ∧ ¬ (6 ≤ 1) :=
  ⟨rfl, rfl, rfl, by decide⟩

/-- C1 amended: evaluating `plan(F)` synchronously returns a new future
that occurs exactly when `F` occurs: at that instant the carried Moment
computation is evaluated, with that instant as its own fresh "now", and
the returned future's value is that evaluation's result (its effects are
the inner evaluation's effects, timestamped at that instant).  If `F`
never occurs or is failed, so is the returned future, with no effect.  In
particular, `F` occurring with payload `Now.of(11*2)` resolves the
returned future to `22` at `F`'s own instant.  (When the carried
computation's result is itself a future, that future is delivered as the
payload and may occur later; the returned future does not wait for
it — see the counterexample.) -/
theorem plan_occurs_at_input_occurrence :
    (∀ {α : Type u} (t2 : Time) (n : Now α) (t : Time) (log : List Event),
        (plan (Future.occ t2 n)).run t log
          = (Future.occ t2 (n.run t2 log).1, (n.run t2 log).2))
    ∧ (∀ {α : Type u} (t : Time) (log : List Event),
        (plan (Future.never : Future (Now α))).run t log
          = (Future.never, log))
    ∧ (∀ {α : Type u} (tf t : Time) (log : List Event),
        (plan (Future.failed tf : Future (Now α))).run t log
          = (Future.failed tf, log))
    ∧ (∀ (d t : Time) (log : List Event),
        (plan (Future.occ d (Now.of (11 * 2)))).run t log
          = (Future.occ d (22 : Nat), log)) :=
  ⟨fun _ _ _ _ => rfl, fun _ _ => rfl, fun _ _ _ => rfl, fun _ _ _ => rfl⟩

/-- C9: evaluating `performStream(s)` returns a brand-new output stream
(its identity differs from the input stream's), installs a listener on
`s`, and for every occurrence `(tp, io)` pushed into `s`, the carried
action is executed at the push instant `tp` (a `start` event timestamped
`tp`) and, once its completion value is available (the action does not
fail), that value is pushed into the output stream at `tp + delay`. -/
theorem performStream_executes_and_forwards :
    ∀ {α : Type u} (s : Stream (Action α)) (t : Time) (log : List Event),
      (performStream s).run t log
        = (performIOStream s,
           log ++ [Event.listen s.sid t]
             ++ s.occs.map fun p => Event.start p.2.aid p.1)
      ∧ (performIOStream s).sid ≠ s.sid
      ∧ (∀ tp (io : Action α), (tp, io) ∈ s.occs → io.fails = false →
          (tp + io.delay, io.result) ∈ (performIOStream s).occs)
      ∧ (∀ tp (io : Action α), (tp, io) ∈ s.occs →
          Event.start io.aid tp ∈ ((performStream s).run t log).2) := by
  intro α s t log
  refine ⟨rfl, Nat.succ_ne_self s.sid, fun tp io hm hf => ?_, fun tp io hm => ?_⟩
  · exact List.mem_filterMap.mpr ⟨(tp, io), hm, by simp [hf]⟩
  · show Event.start io.aid tp
      ∈ log ++ [Event.listen s.sid t] ++ s.occs.map fun p => Event.start p.2.aid p.1
    refine List.mem_append.mpr (Or.inr ?_)
    exact List.mem_map.mpr ⟨(tp, io), hm, rfl⟩

/-- Witness for C9 at a concrete input: the singleton stream `0` with one
occurrence at instant 1 carrying the action `⟨5, 2, 10, false⟩`: the
action starts at instant 1 and its result 10 reaches the output stream at
instant 3. -/
theorem performStream_executes_and_forwards_witness :
    (1 + (⟨5, 2, 10, false⟩ : Action Nat).delay,
        (⟨5, 2, 10, false⟩ : Action Nat).result)
      ∈ (performIOStream
          (⟨0, [(1, ⟨5, 2, 10, false⟩)]⟩ : Stream (Action Nat))).occs
    ∧ Event.start 5 1
      ∈ ((performStream
            (⟨0, [(1, ⟨5, 2, 10, false⟩)]⟩ : Stream (Action Nat))).run 0 []).2 :=
  ⟨(performStream_executes_and_forwards
      (⟨0, [(1, ⟨5, 2, 10, false⟩)]⟩ : Stream (Action Nat)) 0 []).2.2.1
      1 ⟨5, 2, 10, false⟩ (by simp) rfl,
   (performStream_executes_and_forwards
      (⟨0, [(1, ⟨5, 2, 10, false⟩)]⟩ : Stream (Action Nat)) 0 []).2.2.2
      1 ⟨5, 2, 10, false⟩ (by simp)⟩

/-- C10: `m.flatten(nn)` ignores its receiver entirely — any two receivers
give the same computation — and running it runs `nn` first and then runs
the inner computation `nn` yields, returning that inner run's value (up to
the embedding's universe wrapper) and its effect log; in particular
`Now.of(0).flatten(Now.of(Now.of(12)))` runs to 12 with no effect. -/
theorem flatten_runs_inner_ignoring_receiver :
    (∀ {α : Type u} (m m2 : Now α) (nn : Now.{u + 1} (Now.{u} α)),
        m.flatten nn = m2.flatten nn)
    ∧ (∀ {α : Type u} (m : Now α) (nn : Now.{u + 1} (Now.{u} α))
        (t : Time) (log : List Event),
        (m.flatten nn).run t log
          = (ULift.up ((nn.run t log).1.run t (nn.run t log).2).1,
             ((nn.run t log).1.run t (nn.run t log).2).2))
    ∧ (∀ (t : Time) (log : List Event),
        ((Now.of (0 : Nat)).flatten (Now.of (Now.of 12))).run t log
          = (ULift.up 12, log)) := by
  refine ⟨fun m m2 nn => rfl, fun m nn t log => ?_, fun t log => rfl⟩
  show (Now.ChainNow nn fun n => n.up).run t log = _
  simp only [Now.run]
  rw [Now.run_up]

end Hareactive
